import Mathlib

/-!
Verification development for the Signal Analysis Pipeline of the AIA
repository: a shallow embedding of the JSON repair parser, the output
sanitizer, the technical-indicator MACD calculation, the Gemini
model-ranking and fallback search, and the market-data cache policy of
the analyze route, together with theorems settling the specification
claims about them.

Conventions of the embedding:
 * JavaScript / JSON values are modelled by the inductive `JVal`;
   JavaScript numbers are modelled by `ℚ`.
 * Property access `raw.f` on a parsed value is `getField raw "f"`
   (`none` plays the role of `undefined`).
 * Functions that can throw return `Except String _`.
 * Machine timestamps are epoch milliseconds, modelled by `ℤ`.
-/

/-- A parsed JSON value (the result of `JSON.parse`).  Object fields are
kept in parse order; duplicate keys are retained and `lookupLast` models
the JavaScript last-occurrence-wins semantics. -/
inductive JVal where
  | jnull : JVal
  | jbool : Bool → JVal
  | jnum : ℚ → JVal
  | jstr : String → JVal
  | jarr : List JVal → JVal
  | jobj : List (String × JVal) → JVal
deriving Repr

/-- Last-wins association lookup, the JavaScript object semantics for
duplicate JSON keys. -/
def lookupLast (kvs : List (String × JVal)) (k : String) : Option JVal :=
  match kvs with
  | [] => none
  | (k', v) :: rest =>
    match lookupLast rest k with
    | some v' => some v'
    | none => if k' = k then some v else none

/-- First-occurrence association lookup (used to read fields of result
objects, whose keys are unique). -/
def lookupFirst (kvs : List (String × JVal)) (k : String) : Option JVal :=
  match kvs with
  | [] => none
  | (k', v) :: rest => if k' = k then some v else lookupFirst rest k

/-- Property access on a parsed value: `getField v "f"` models `v.f`,
returning `none` for `undefined`.  Access on a non-object yields
`undefined` (the source only reads named schema keys, which are not
properties of primitives or arrays). -/
def getField : JVal → String → Option JVal
  | .jobj kvs, k => lookupLast kvs k
  | _, _ => none

/-- JavaScript `\s`-style whitespace (the characters relevant to this
code base). -/
def isJsWs (c : Char) : Bool :=
  c = ' ' || c = '\t' || c = '\n' || c = '\r' || c.val = 12 || c.val = 11

/-- JSON (RFC 8259) whitespace, as accepted between tokens by
`JSON.parse`. -/
def isJsonWs (c : Char) : Bool :=
  c = ' ' || c = '\t' || c = '\n' || c = '\r'

/-- `String.prototype.trim`. -/
def trimJS (s : String) : String :=
  ⟨((s.data.dropWhile isJsWs).reverse.dropWhile isJsWs).reverse⟩

/-- Does `hay` start with `pat`? -/
def startsWithL : List Char → List Char → Bool
  | _, [] => true
  | [], _ :: _ => false
  | c :: cs, p :: ps => c = p && startsWithL cs ps

/-- `String.prototype.includes`, on character lists. -/
def containsL : List Char → List Char → Bool
  | [], pat => pat.isEmpty
  | c :: t, pat => startsWithL (c :: t) pat || containsL t pat

/-- `hay.includes(needle)`. -/
def containsStr (hay needle : String) : Bool :=
  containsL hay.data needle.data

/-- Digit test for the JSON number grammar. -/
def isDigitCh (c : Char) : Bool := '0' ≤ c && c ≤ '9'

/-- Value of a list of decimal digit characters. -/
def digitsToNat (ds : List Char) : ℕ :=
  ds.foldl (fun n c => 10 * n + (c.toNat - 48)) 0

/-- One hexadecimal digit (for `\uXXXX` escapes). -/
def hexVal (c : Char) : Option ℕ :=
  if '0' ≤ c ∧ c ≤ '9' then some (c.toNat - 48)
  else if 'a' ≤ c ∧ c ≤ 'f' then some (c.toNat - 87)
  else if 'A' ≤ c ∧ c ≤ 'F' then some (c.toNat - 55)
  else none

/-- Body of a JSON string literal after the opening quote: returns the
decoded characters and the remaining input.  Escape sequences are the
ones `JSON.parse` accepts; a raw control character is rejected. -/
def parseStringBody : ℕ → List Char → Option (List Char × List Char)
  | 0, _ => none
  | _ + 1, [] => none
  | fuel + 1, c :: rest =>
    if c = '"' then some ([], rest)
    else if c = '\\' then
      match rest with
      | [] => none
      | e :: rest2 =>
        if e = 'u' then
          match rest2 with
          | h1 :: h2 :: h3 :: h4 :: rest3 =>
            match hexVal h1, hexVal h2, hexVal h3, hexVal h4 with
            | some a, some b, some c', some d =>
              match parseStringBody fuel rest3 with
              | some (cs, rem) =>
                some (Char.ofNat (((a * 16 + b) * 16 + c') * 16 + d) :: cs, rem)
              | none => none
            | _, _, _, _ => none
          | _ => none
        else
          match
            (if e = '"' then some '"'
             else if e = '\\' then some '\\'
             else if e = '/' then some '/'
             else if e = 'b' then some (Char.ofNat 8)
             else if e = 'f' then some (Char.ofNat 12)
             else if e = 'n' then some '\n'
             else if e = 'r' then some '\r'
             else if e = 't' then some '\t'
             else none) with
          | some d =>
            match parseStringBody fuel rest2 with
            | some (cs, rem) => some (d :: cs, rem)
            | none => none
          | none => none
    else if c.val < 32 then none
    else
      match parseStringBody fuel rest with
      | some (cs, rem) => some (c :: cs, rem)
      | none => none

/-- Fractional part `(\.[0-9]+)?` of a JSON number: its exact value and
the remaining input. -/
def parseFracPart (cs : List Char) : Option (ℚ × List Char) :=
  match cs with
  | '.' :: t =>
    let fs := t.takeWhile isDigitCh
    if fs = [] then none
    else some ((digitsToNat fs : ℚ) / ((10 : ℚ) ^ fs.length), t.drop fs.length)
  | _ => some (0, cs)

/-- Exponent part `([eE][+-]?[0-9]+)?` of a JSON number. -/
def parseExpPart (cs : List Char) : Option (ℤ × List Char) :=
  match cs with
  | 'e' :: t | 'E' :: t =>
    let (esign, t2) :=
      match t with
      | '+' :: t' => ((1 : ℤ), t')
      | '-' :: t' => ((-1 : ℤ), t')
      | _ => ((1 : ℤ), t)
    let es := t2.takeWhile isDigitCh
    if es = [] then none
    else some (esign * (digitsToNat es : ℤ), t2.drop es.length)
  | _ => some (0, cs)

/-- JSON number grammar `-?(0|[1-9][0-9]*)(\.[0-9]+)?([eE][+-]?[0-9]+)?`,
evaluated exactly in `ℚ`. -/
def parseNumber (cs : List Char) : Option (ℚ × List Char) :=
  let (negSign, cs1) :=
    match cs with
    | '-' :: t => (true, t)
    | _ => (false, cs)
  let ints := cs1.takeWhile isDigitCh
  if ints = [] then none
  else if ints.length > 1 ∧ ints.headI = '0' then none
  else
    match parseFracPart (cs1.drop ints.length) with
    | none => none
    | some (fq, cs3) =>
      match parseExpPart cs3 with
      | none => none
      | some (e, cs4) =>
        let v : ℚ := ((digitsToNat ints : ℚ) + fq) * (10 : ℚ) ^ e
        some (if negSign then -v else v, cs4)

mutual

/-- One JSON value, fuelled recursive-descent mirror of `JSON.parse`. -/
def parseJVal : ℕ → List Char → Option (JVal × List Char)
  | 0, _ => none
  | fuel + 1, cs =>
    match cs with
    | 'n' :: 'u' :: 'l' :: 'l' :: rest => some (.jnull, rest)
    | 't' :: 'r' :: 'u' :: 'e' :: rest => some (.jbool true, rest)
    | 'f' :: 'a' :: 'l' :: 's' :: 'e' :: rest => some (.jbool false, rest)
    | '"' :: rest =>
      match parseStringBody (rest.length + 1) rest with
      | some (chars, rem) => some (.jstr ⟨chars⟩, rem)
      | none => none
    | '[' :: rest =>
      let rest1 := rest.dropWhile isJsonWs
      match rest1 with
      | ']' :: rem => some (.jarr [], rem)
      | _ =>
        match parseElems fuel rest1 with
        | some (els, rem) => some (.jarr els, rem)
        | none => none
    | '{' :: rest =>
      let rest1 := rest.dropWhile isJsonWs
      match rest1 with
      | '}' :: rem => some (.jobj [], rem)
      | _ =>
        match parseMembers fuel rest1 with
        | some (kvs, rem) => some (.jobj kvs, rem)
        | none => none
    | _ =>
      match parseNumber cs with
      | some (q, rest) => some (.jnum q, rest)
      | none => none

/-- Comma-separated array elements, ending at `]`. -/
def parseElems : ℕ → List Char → Option (List JVal × List Char)
  | 0, _ => none
  | fuel + 1, cs =>
    match parseJVal fuel cs with
    | none => none
    | some (v, rest) =>
      let rest1 := rest.dropWhile isJsonWs
      match rest1 with
      | ']' :: rem => some ([v], rem)
      | ',' :: rest2 =>
        match parseElems fuel (rest2.dropWhile isJsonWs) with
        | some (vs, rem) => some (v :: vs, rem)
        | none => none
      | _ => none

/-- Comma-separated `"key": value` members, ending at `}`. -/
def parseMembers : ℕ → List Char → Option (List (String × JVal) × List Char)
  | 0, _ => none
  | fuel + 1, cs =>
    match cs with
    | '"' :: rest =>
      match parseStringBody (rest.length + 1) rest with
      | none => none
      | some (kchars, rest1) =>
        match rest1.dropWhile isJsonWs with
        | ':' :: rest2 =>
          match parseJVal fuel (rest2.dropWhile isJsonWs) with
          | none => none
          | some (v, rest3) =>
            let rest4 := rest3.dropWhile isJsonWs
            match rest4 with
            | '}' :: rem => some ([(⟨kchars⟩, v)], rem)
            | ',' :: rest5 =>
              match parseMembers fuel (rest5.dropWhile isJsonWs) with
              | some (kvs, rem) => some ((⟨kchars⟩, v) :: kvs, rem)
              | none => none
            | _ => none
        | _ => none
    | _ => none

end

/-- `JSON.parse`: leading/trailing whitespace allowed, whole input must
be consumed; `none` models a thrown `SyntaxError`. -/
def jsonParse (s : String) : Option JVal :=
  let cs := s.data.dropWhile isJsonWs
  match parseJVal (2 * cs.length + 8) cs with
  | some (v, rest) => if rest.dropWhile isJsonWs = [] then some v else none
  | none => none

/-! ### The response repair parser (`parseJsonResponse` in the AI module) -/

/-- Case-insensitive character comparison (for the `i` regex flag). -/
def charEqCI (a b : Char) : Bool := a.toLower = b.toLower

/-- Does `hay` start with `pat`, optionally case-insensitively? -/
def startsWithCI (ci : Bool) : List Char → List Char → Bool
  | _, [] => true
  | [], _ :: _ => false
  | c :: cs, p :: ps =>
    (if ci then charEqCI c p else c = p) && startsWithCI ci cs ps

/-- Global regex replacement of `tok\s*` by the empty string: scan left
to right, and on a match drop the token and any following whitespace,
continuing after the removed span (the semantics of
`replace(/tok\s*/g, "")`). -/
def stripTokWs (tok : List Char) (ci : Bool) : ℕ → List Char → List Char
  | 0, cs => cs
  | _ + 1, [] => []
  | fuel + 1, c :: rest =>
    if startsWithCI ci (c :: rest) tok then
      stripTokWs tok ci fuel (((c :: rest).drop tok.length).dropWhile isJsWs)
    else c :: stripTokWs tok ci fuel rest

/-- Index of the first occurrence of `c`, as `indexOf` (`none` for -1). -/
def firstIdxOf (cs : List Char) (c : Char) : Option ℕ :=
  match cs with
  | [] => none
  | d :: rest =>
    if d = c then some 0
    else match firstIdxOf rest c with
      | some i => some (i + 1)
      | none => none

/-- Index of the last occurrence of `c`, as `lastIndexOf`. -/
def lastIdxOf (cs : List Char) (c : Char) : Option ℕ :=
  match cs with
  | [] => none
  | d :: rest =>
    match lastIdxOf rest c with
    | some i => some (i + 1)
    | none => if d = c then some 0 else none

/-- `replace(/,\s*$/, "")`: drop a trailing comma (with trailing
whitespace). -/
def dropTrailingComma : List Char → List Char
  | [] => []
  | c :: rest =>
    if c = ',' ∧ rest.all isJsWs then []
    else c :: dropTrailingComma rest

/-- Does `cs` consist of whitespace, then `"`, then no further quote —
the part after the comma in `/,\s*"[^"]*$/`? -/
def isKeyFragment (cs : List Char) : Bool :=
  match cs.dropWhile isJsWs with
  | '"' :: t => t.all (· ≠ '"')
  | _ => false

/-- `replace(/,\s*"[^"]*$/, "")`: drop a trailing incomplete `"key`
fragment. -/
def dropTrailingKeyFragment : List Char → List Char
  | [] => []
  | c :: rest =>
    if c = ',' ∧ isKeyFragment rest then []
    else c :: dropTrailingKeyFragment rest

/-- `replace(/:\s*$/, ": null")`: complete a value missing after a
colon. -/
def completeTrailingColon : List Char → List Char
  | [] => []
  | c :: rest =>
    if c = ':' ∧ rest.all isJsWs then (": null").data
    else c :: completeTrailingColon rest

/-- Number of double quotes not preceded by a backslash, the count of
`/(?<!\\)"/g` matches; `prev` is the preceding character. -/
def countUnescapedQuotes : Option Char → List Char → ℕ
  | _, [] => 0
  | prev, c :: rest =>
    (if c = '"' ∧ prev ≠ some '\\' then 1 else 0) +
      countUnescapedQuotes (some c) rest

/-- Number of occurrences of a character. -/
def countCh (cs : List Char) (c : Char) : ℕ := (cs.filter (· = c)).length

/-- The bounded repair heuristic applied when the strict parse of the
cleaned text fails. -/
def repairJson (cleaned : List Char) : List Char :=
  let opens := countCh cleaned '{'
  let closes := countCh cleaned '}'
  let r1 := dropTrailingComma cleaned
  let r2 := dropTrailingKeyFragment r1
  let r3 := completeTrailingColon r2
  let r4 := if countUnescapedQuotes none r3 % 2 ≠ 0 then r3 ++ ['"'] else r3
  r4 ++ List.replicate (opens - closes) '}'

/-- `parseJsonResponse`: strip Markdown fences, slice to the outermost
braces, strict-parse, on failure repair once and re-parse, otherwise
raise an error carrying the first 500 characters of the raw text. -/
def parseJsonResponse (text : String) : Except String JVal :=
  let c1 := stripTokWs ("```json").data true (text.data.length + 1) text.data
  let c2 := stripTokWs ("```").data false (c1.length + 1) c1
  let cleaned0 := (trimJS ⟨c2⟩).data
  let cleaned :=
    match firstIdxOf cleaned0 '{', lastIdxOf cleaned0 '}' with
    | some s, some e =>
      if s < e then (cleaned0.drop s).take (e + 1 - s) else cleaned0
    | _, _ => cleaned0
  match jsonParse ⟨cleaned⟩ with
  | some v => .ok v
  | none =>
    match jsonParse ⟨repairJson cleaned⟩ with
    | some v => .ok v
    | none =>
      .error ("Failed to parse AI response as JSON. Raw response (first 500 chars): "
        ++ ⟨text.data.take 500⟩)

/-! ### The output sanitizer (`sanitizeAnalysis` in the AI module) -/

def VALID_SIGNALS : List String := ["weak", "medium", "strong", "very_strong"]
def VALID_ACTIONS : List String := ["buy", "sell", "hold", "watch"]
def VALID_RISKS : List String := ["low", "moderate", "high", "very_high"]
def VALID_TRENDS : List String := ["bullish", "bearish", "neutral", "sideways"]

/-- `field?.trim()`: `undefined`/`null` propagate as `undefined`, a
string is trimmed, and any other value throws a `TypeError` (it has no
`trim` method). -/
def optTrimStr : Option JVal → Except String (Option String)
  | none => .ok none
  | some .jnull => .ok none
  | some (.jstr s) => .ok (some (trimJS s))
  | some _ => .error "TypeError: trim is not a function"

/-- `o ?? d`: nullish coalescing on a possibly absent field. -/
def nullishOr : Option JVal → JVal → JVal
  | some .jnull, d => d
  | none, d => d
  | some v, _ => v

/-- `VALID.includes(x) ? x : dflt` — `includes` succeeds only on an
exact string of the enumeration. -/
def enumOr (o : Option JVal) (valid : List String) (dflt : String) : String :=
  match o with
  | some (.jstr s) => if s ∈ valid then s else dflt
  | _ => dflt

/-- `Number.prototype.toFixed(2)` on the exact rational model (rounding
half away from zero). -/
def toFixed2 (q : ℚ) : String :=
  let n : ℕ := (⌊|q| * 100 + 1 / 2⌋).toNat
  let frac := n % 100
  (if q < 0 then "-" else "") ++ toString (n / 100) ++ "." ++
    (if frac < 10 then "0" ++ toString frac else toString frac)

/-- Decimal-style display of the rational number model (template-literal
`String()` conversion; the exact digit string of a float is approximated
by `num/den` for non-integers, which only affects synthesized prose). -/
def ratDisplay (q : ℚ) : String :=
  (if q < 0 then "-" else "") ++
    (if q.den = 1 then toString q.num.natAbs
     else toString q.num.natAbs ++ "/" ++ toString q.den)

/-- Template-literal `String()` conversion of a value. -/
def jsDisplay : JVal → String
  | .jnull => "null"
  | .jbool b => if b then "true" else "false"
  | .jnum q => ratDisplay q
  | .jstr s => s
  | .jarr xs =>
    String.intercalate ","
      (xs.attach.map fun x =>
        match x with
        | ⟨.jnull, _⟩ => ""
        | ⟨v, _⟩ => jsDisplay v)
  | .jobj _ => "[object Object]"

/-- `ts?.k` where `ts` is the parsed `technical_summary` field. -/
def tsGet (raw : JVal) (k : String) : Option JVal :=
  match getField raw "technical_summary" with
  | some (.jobj kvs) => lookupLast kvs k
  | _ => none

/-- The own enumerable entries contributed by `...v` in an object
literal: an object's fields, an array's or string's indexed elements,
nothing for primitives and nullish values. -/
def spreadSource : Option JVal → List (String × JVal)
  | some (.jobj kvs) => kvs
  | some (.jarr xs) => xs.enum.map fun p => (toString p.1, p.2)
  | some (.jstr s) => s.data.enum.map fun p => (toString p.1, JVal.jstr ⟨[p.2]⟩)
  | _ => []

/-- Assigning key `k` in an object: overwrite in place if present,
append otherwise. -/
def upsertKV : List (String × JVal) → String → JVal → List (String × JVal)
  | [], k, v => [(k, v)]
  | (k', v') :: rest, k, v =>
    if k' = k then (k', v) :: rest else (k', v') :: upsertKV rest k v

/-- `{ ...base-literal, ...src }`: the later spread assigns each of its
entries over the base object in order. -/
def mergeSpread (base src : List (String × JVal)) : List (String × JVal) :=
  src.foldl (fun acc kv => upsertKV acc kv.1 kv.2) base

/-- The fully sanitized analysis result. -/
structure SanitizedAnalysis where
  symbol : JVal
  signal_level : String
  action : String
  suggested_buy_price : JVal
  suggested_sell_price : JVal
  stop_loss_price : JVal
  risk_estimation : String
  reasoning : String
  technical_summary : List (String × JVal)
  confidence : ℚ
  time_horizon : String
deriving Repr

/-- The reasoning synthesized when the model returned none. -/
def defaultReasoning (raw : JVal) (symbol : String) (currentPrice : ℚ) : String :=
  "Analysis for " ++ symbol ++ " at $" ++ toFixed2 currentPrice ++
    ". Signal: " ++ jsDisplay (nullishOr (getField raw "signal_level") (.jstr "weak")) ++
    ". No detailed reasoning was returned by the AI model."

/-- The record built by `sanitizeAnalysis` once the two `?.trim()` calls
have produced `reasoningTrim` and `thTrim` without throwing. -/
def sanitizeCore (raw : JVal) (symbol : String) (currentPrice : ℚ)
    (reasoningTrim thTrim : Option String) : SanitizedAnalysis where
  symbol := nullishOr (getField raw "symbol") (.jstr symbol)
  signal_level := enumOr (getField raw "signal_level") VALID_SIGNALS "weak"
  action := enumOr (getField raw "action") VALID_ACTIONS "watch"
  suggested_buy_price := nullishOr (getField raw "suggested_buy_price") .jnull
  suggested_sell_price := nullishOr (getField raw "suggested_sell_price") .jnull
  stop_loss_price := nullishOr (getField raw "stop_loss_price") .jnull
  risk_estimation := enumOr (getField raw "risk_estimation") VALID_RISKS "moderate"
  reasoning :=
    match reasoningTrim with
    | some s => if s = "" then defaultReasoning raw symbol currentPrice else s
    | none => defaultReasoning raw symbol currentPrice
  technical_summary :=
    mergeSpread
      [("trend",
        match tsGet raw "trend" with
        | some (.jstr s) => if s ∈ VALID_TRENDS then JVal.jstr s else .jstr "neutral"
        | _ => .jstr "neutral"),
       ("support_levels",
        match tsGet raw "support_levels" with
        | some (.jarr xs) => .jarr xs
        | _ => .jarr []),
       ("resistance_levels",
        match tsGet raw "resistance_levels" with
        | some (.jarr xs) => .jarr xs
        | _ => .jarr []),
       ("key_indicators", nullishOr (tsGet raw "key_indicators") (.jstr ""))]
      (spreadSource (getField raw "technical_summary"))
  confidence :=
    match getField raw "confidence" with
    | some (.jnum q) => min 1 (max 0 q)
    | _ => (1 : ℚ) / 2
  time_horizon :=
    match thTrim with
    | some s => if s = "" then "N/A" else s
    | none => "N/A"

/-- `sanitizeAnalysis(raw, symbol, currentPrice)`.  Field access on a
`null` payload throws at `raw.symbol`; `raw.reasoning?.trim()` and
`raw.time_horizon?.trim()` throw on non-null non-string values; every
other input yields `sanitizeCore`. -/
def sanitizeAnalysis (raw : JVal) (symbol : String) (currentPrice : ℚ) :
    Except String SanitizedAnalysis :=
  match raw with
  | .jnull => .error "TypeError: Cannot read properties of null"
  | raw =>
    match optTrimStr (getField raw "reasoning") with
    | .error e => .error e
    | .ok rT =>
      match optTrimStr (getField raw "time_horizon") with
      | .error e => .error e
      | .ok tT => .ok (sanitizeCore raw symbol currentPrice rT tT)

/-! ### Technical indicators (`calculateMACD` / `calculateEMA`) -/

/-- One daily price bar. -/
structure StockDailyData where
  date : String
  openPrice : ℚ
  high : ℚ
  low : ℚ
  close : ℚ
  volume : ℚ
deriving Repr

/-- `calculateEMA(values, period)`: seed with the simple average of the
first `period` values, then fold the remaining values with
`ema = (v - ema) * multiplier + ema`. -/
def calculateEMA (values : List ℚ) (period : ℕ) : Option ℚ :=
  if values.length < period then none
  else
    let multiplier : ℚ := 2 / ((period : ℚ) + 1)
    some ((values.drop period).foldl
      (fun ema v => (v - ema) * multiplier + ema)
      ((values.take period).sum / (period : ℚ)))

structure MACDResult where
  macd : ℚ
  signal : ℚ
  histogram : ℚ
deriving DecidableEq, Repr

/-- `calculateMACD(data)`: null below 26 bars, otherwise
EMA(12) − EMA(26) of the closes, signal = macd × 0.85 (the documented
simplified approximation), histogram = macd − signal. -/
def calculateMACD (data : List StockDailyData) : Option MACDResult :=
  if data.length < 26 then none
  else
    match calculateEMA (data.map (·.close)) 12, calculateEMA (data.map (·.close)) 26 with
    | some ema12, some ema26 =>
      let macd := ema12 - ema26
      let signal := macd * (85 / 100)
      some ⟨macd, signal, macd - signal⟩
    | _, _ => none

/-- The EMA exactly as the specification words it: seed = simple average
of the first `period` values, multiplier `2/(period+1)`, and the
textbook recursion `ema' = value·m + ema·(1−m)`. -/
def emaSpec (values : List ℚ) (period : ℕ) : ℚ :=
  let m : ℚ := 2 / ((period : ℚ) + 1)
  (values.drop period).foldl
    (fun ema v => v * m + ema * (1 - m))
    ((values.take period).sum / (period : ℚ))

/-! ### The analyze route: market-data cache policy and persistence -/

/-- A row of the `stock_data_cache` store for one symbol and kind. -/
structure StockCacheEntry where
  data : JVal
  fetched_at : ℤ
deriving Repr

/-- The freshness window used by the route: 2 hours in milliseconds. -/
def CACHE_WINDOW_MS : ℤ := 2 * 60 * 60 * 1000

/-- The route's cache read: the select filters with
`gte("fetched_at", twoHoursAgo)`, so an entry is returned exactly when
it exists and `fetched_at ≥ now − 2h`. -/
def cacheLookup (cache : String → Option StockCacheEntry) (now : ℤ)
    (kind : String) : Option StockCacheEntry :=
  match cache kind with
  | some e => if now - CACHE_WINDOW_MS ≤ e.fetched_at then some e else none
  | none => none

/-- The market-data step of the analyze route: read both kinds through
the freshness filter; use the cached payloads if both were returned,
otherwise fetch both fresh and upsert both entries stamped `now`.
Returns `((quote, daily), cache-after, didFetch)`. -/
def marketData (cache : String → Option StockCacheEntry) (now : ℤ)
    (fetchQuote fetchDaily : JVal) :
    (JVal × JVal) × (String → Option StockCacheEntry) × Bool :=
  match cacheLookup cache now "quote", cacheLookup cache now "daily" with
  | some cq, some cd => ((cq.data, cd.data), cache, false)
  | _, _ =>
    ((fetchQuote, fetchDaily),
     fun k =>
       if k = "quote" then some ⟨fetchQuote, now⟩
       else if k = "daily" then some ⟨fetchDaily, now⟩
       else cache k,
     true)

/-- The freshness notion claimed by the specification: an entry whose
age is **greater than or equal to** 2 hours is treated as absent, so an
entry counts as fresh exactly when `now − fetched_at < 2h`. -/
def specFreshClaim (cache : String → Option StockCacheEntry) (now : ℤ)
    (kind : String) : Prop :=
  ∃ e, cache kind = some e ∧ now - e.fetched_at < CACHE_WINDOW_MS

/-- The columns of the suggestion row the route inserts that this
development reasons about (`user_id` and `expires_at` are external
concerns omitted here). -/
structure SuggestionRow where
  symbol : String
  signal_level : String
  action : String
  suggested_buy_price : JVal
  suggested_sell_price : JVal
  stop_loss_price : JVal
  current_price : ℚ
  risk_estimation : String
  reasoning : String
  technical_summary : List (String × JVal)
  confidence : ℚ
  time_horizon : String
  is_active : Bool
deriving Repr

/-- The insert payload built by the analyze route: the stored symbol is
`symbol.toUpperCase()` of the requested symbol, not the analysis's own
symbol field. -/
def mkSuggestionRow (symbol : String) (analysis : SanitizedAnalysis)
    (currentPrice : ℚ) : SuggestionRow where
  symbol := symbol.toUpper
  signal_level := analysis.signal_level
  action := analysis.action
  suggested_buy_price := analysis.suggested_buy_price
  suggested_sell_price := analysis.suggested_sell_price
  stop_loss_price := analysis.stop_loss_price
  current_price := currentPrice
  risk_estimation := analysis.risk_estimation
  reasoning := analysis.reasoning
  technical_summary := analysis.technical_summary
  confidence := analysis.confidence
  time_horizon := analysis.time_horizon
  is_active := true

/-! ### The Gemini provider: fallback search over models × revisions -/

/-- One HTTP response of a `generateContent` attempt: the status code,
the response body text, and the extracted candidate text
`result.candidates?.[0]?.content?.parts?.[0]?.text` when the response
was parsed (`none` models `undefined`). -/
structure GemResp where
  status : ℕ
  body : String
  text : Option String
deriving Repr

/-- `res.ok`: status in the 200–299 range. -/
def respOk (r : GemResp) : Bool := 200 ≤ r.status && r.status ≤ 299

/-- `!text`: the extracted text is absent or the empty string. -/
def textEmpty : Option String → Bool
  | none => true
  | some s => s = ""

/-- The two API revisions tried, in order. -/
def GEMINI_VERSIONS : List String := ["v1beta", "v1"]

/-- Result of the whole fallback search. -/
inductive GemOutcome where
  | success (model version text : String)
  | rateLimited (quotaZero : Bool)
  | noUsableModel
  | allFailed (tried : List String) (errors : List String)
deriving Repr

/-- Result of trying the revisions of a single model. -/
inductive ModelTry where
  | success (version text : String)
  | abort (quotaZero : Bool)
  | giveUp (errs : List String)
deriving Repr

def errEmpty (m v : String) : String := m ++ "/" ++ v ++ ": empty response"
def errHttp (m v : String) (s : ℕ) : String := m ++ "/" ++ v ++ ": HTTP " ++ toString s

/-- The inner `for version of ["v1beta","v1"]` loop for one model:
success returns, empty text records a soft error and moves to the next
model, 429 aborts the whole chain, 404 tries the next revision, any
other failure records the error and moves to the next model.  Also
returns the list of (model, version) requests actually performed. -/
def tryModel (oracle : String → String → GemResp) (m : String) :
    List String → ModelTry × List (String × String)
  | [] => (.giveUp [], [])
  | v :: vs =>
    let r := oracle m v
    if respOk r then
      match r.text with
      | some s =>
        if s = "" then (.giveUp [errEmpty m v], [(m, v)])
        else (.success v s, [(m, v)])
      | none => (.giveUp [errEmpty m v], [(m, v)])
    else if r.status = 429 then
      (.abort (containsStr r.body "limit: 0"), [(m, v)])
    else if r.status = 404 then
      ((tryModel oracle m vs).1, (m, v) :: (tryModel oracle m vs).2)
    else
      (.giveUp [errHttp m v r.status], [(m, v)])

/-- The outer loop over ranked candidates, accumulating soft errors. -/
def goModels (oracle : String → String → GemResp) (allCands : List String) :
    List String → List String → GemOutcome × List (String × String)
  | [], errs => (.allFailed allCands errs, [])
  | m :: rest, errs =>
    match (tryModel oracle m GEMINI_VERSIONS).1 with
    | .success v t => (.success m v t, (tryModel oracle m GEMINI_VERSIONS).2)
    | .abort b => (.rateLimited b, (tryModel oracle m GEMINI_VERSIONS).2)
    | .giveUp es =>
      ((goModels oracle allCands rest (errs ++ es)).1,
       (tryModel oracle m GEMINI_VERSIONS).2 ++ (goModels oracle allCands rest (errs ++ es)).2)

/-- The fallback search of `analyzeWithGemini` over the ranked candidate
list, given an oracle mapping (model, revision) to its HTTP response.
Returns the outcome and the trace of performed requests. -/
def geminiFallback (oracle : String → String → GemResp)
    (candidates : List String) : GemOutcome × List (String × String) :=
  match candidates with
  | [] => (.noUsableModel, [])
  | _ => goModels oracle candidates candidates []

/-- The error entries a single performed request contributes to the
aggregate failure report: one entry for an empty-text success or for a
non-404, non-429 failure; nothing for 404s (and a 429 or a non-empty
success ends the search instead). -/
def errOf (oracle : String → String → GemResp) (mv : String × String) :
    List String :=
  let r := oracle mv.1 mv.2
  if respOk r then
    (if textEmpty r.text then [errEmpty mv.1 mv.2] else [])
  else if r.status = 429 ∨ r.status = 404 then []
  else [errHttp mv.1 mv.2 r.status]

/-! ### Model discovery ranking (`rankModels`) -/

/-- A discovered model descriptor. -/
structure GeminiModel where
  name : String
  displayName : String
  supportedGenerationMethods : List String
deriving Repr

def EXCLUDE_PATTERNS : List String := ["tts", "imagen", "veo", "embedding", "aqa", "bisheng"]

/-- `String.prototype.toLowerCase` (ASCII, as the model ids are). -/
def toLowerJS (s : String) : String := ⟨s.data.map Char.toLower⟩

/-- Drop the first occurrence of `pat` from `cs`
(`String.prototype.replace` with a string pattern and empty
replacement). -/
def dropFirstOcc (pat : List Char) : List Char → List Char
  | [] => []
  | c :: rest =>
    if startsWithL (c :: rest) pat then (c :: rest).drop pat.length
    else c :: dropFirstOcc pat rest

/-- `name.replace("models/", "")`. -/
def stripModelsTag (s : String) : String := ⟨dropFirstOcc ("models/").data s.data⟩

/-- The version captured by `/gemini-(\d+(?:\.\d+)?)/` starting exactly
here, as an exact rational (`parseFloat` of the captured group). -/
def matchGeminiVersion (cs : List Char) : Option ℚ :=
  if startsWithL cs ("gemini-").data then
    let tail := cs.drop 7
    let ds := tail.takeWhile isDigitCh
    if ds = [] then none
    else
      match tail.drop ds.length with
      | '.' :: r2 =>
        let fs := r2.takeWhile isDigitCh
        if fs = [] then some (digitsToNat ds : ℚ)
        else some ((digitsToNat ds : ℚ) + (digitsToNat fs : ℚ) / ((10 : ℚ) ^ fs.length))
      | _ => some (digitsToNat ds : ℚ)
  else none

/-- Leftmost match of `/gemini-(\d+(?:\.\d+)?)/` over the whole string. -/
def findGeminiVersion : List Char → Option ℚ
  | [] => none
  | c :: rest =>
    match matchGeminiVersion (c :: rest) with
    | some q => some q
    | none => findGeminiVersion rest

/-- The extracted version number, defaulting to 0 when absent. -/
def geminiVersionOf (m : String) : ℚ := (findGeminiVersion m.data).getD 0

/-- The ranking score of one model id, accumulated exactly as in the
source. -/
def score (model : String) : ℚ :=
  let m := toLowerJS model
  let s : ℚ := 0
  let s := if containsStr m "latest" then s + 10000 else s
  let s := s + geminiVersionOf m * 1000
  let s := if containsStr m "flash" then s + 100 else s
  let s :=
    if !containsStr m "preview" && !containsStr m "exp" then s + 50
    else if containsStr m "preview" then s + 20
    else s
  s

/-- The eligible, prefix-stripped model ids in discovery order: text
generation supported and no excluded-modality marker in the id. -/
def filteredIds (available : List GeminiModel) : List String :=
  (available.filter fun m =>
    m.supportedGenerationMethods.contains "generateContent" &&
      !(EXCLUDE_PATTERNS.any fun p => containsStr (toLowerJS m.name) p)).map
    fun m => stripModelsTag m.name

/-- `rankModels`: filter then sort by descending score; the sort is
stable, as `Array.prototype.sort`, so ties keep discovery order
(realized here by insertion sort, which is stable). -/
def rankModels (available : List GeminiModel) : List String :=
  let textModels := filteredIds available
  match textModels with
  | [] => []
  | _ => List.insertionSort (fun a b => score b ≤ score a) textModels

/-- The scoring formula as the specification words it: +10000 for a
"latest" marker, +1000 × the parsed version (0 when absent), +100 for
the flash tier, and +50 / +20 / +0 for stable / preview / experimental
ids. -/
def scoreSpecFormula (model : String) : ℚ :=
  let m := toLowerJS model
  (if containsStr m "latest" then (10000 : ℚ) else 0) +
    1000 * geminiVersionOf m +
    (if containsStr m "flash" then (100 : ℚ) else 0) +
    (if !containsStr m "preview" && !containsStr m "exp" then (50 : ℚ)
     else if containsStr m "preview" then 20 else 0)

/-- A field value on which `?.trim()` does not throw. -/
def StrFieldOK (o : Option JVal) : Prop :=
  o = none ∨ o = some .jnull ∨ ∃ s, o = some (.jstr s)

/-! ### Helper lemmas -/

theorem lookupFirst_upsertKV_self (acc : List (String × JVal)) (k : String) (v : JVal) :
    lookupFirst (upsertKV acc k v) k = some v := by
  induction acc with
  | nil => simp [upsertKV, lookupFirst]
  | cons h t ih =>
    obtain ⟨k', v'⟩ := h
    by_cases hk : k' = k
    · simp [upsertKV, lookupFirst, hk]
    · simp [upsertKV, lookupFirst, hk, ih]

theorem lookupFirst_upsertKV_other (acc : List (String × JVal)) (k k'' : String) (v : JVal)
    (h : k'' ≠ k) : lookupFirst (upsertKV acc k v) k'' = lookupFirst acc k'' := by
  have hke : ¬ (k = k'') := fun he => h he.symm
  induction acc with
  | nil => simp [upsertKV, lookupFirst, hke]
  | cons hd t ih =>
    obtain ⟨k', v'⟩ := hd
    by_cases hk : k' = k
    · subst hk
      simp [upsertKV, lookupFirst, hke]
    · simp [upsertKV, lookupFirst, hk, ih]

theorem lookupFirst_mergeSpread (src : List (String × JVal)) :
    ∀ (base : List (String × JVal)) (k : String),
      lookupFirst (mergeSpread base src) k =
        match lookupLast src k with
        | some v => some v
        | none => lookupFirst base k := by
  induction src with
  | nil => intro base k; simp [mergeSpread, lookupLast]
  | cons hd t ih =>
    intro base k
    obtain ⟨k₁, v₁⟩ := hd
    have hstep : mergeSpread base ((k₁, v₁) :: t) = mergeSpread (upsertKV base k₁ v₁) t := by
      simp [mergeSpread]
    rw [hstep, ih]
    cases hlast : lookupLast t k with
    | some v => simp [lookupLast, hlast]
    | none =>
      by_cases hk : k₁ = k
      · subst hk
        simp [lookupLast, hlast, lookupFirst_upsertKV_self]
      · simp [lookupLast, hlast, hk, lookupFirst_upsertKV_other _ _ _ _ (fun he => hk he.symm)]

theorem optTrimStr_ok_of_StrFieldOK {o : Option JVal} (h : StrFieldOK o) :
    ∃ t, optTrimStr o = .ok t := by
  rcases h with h | h | ⟨s, h⟩ <;> subst h <;> exact ⟨_, rfl⟩

theorem sanitizeAnalysis_eq (raw : JVal) (symbol : String) (price : ℚ)
    (hraw : raw ≠ .jnull) {rT tT : Option String}
    (hr : optTrimStr (getField raw "reasoning") = .ok rT)
    (ht : optTrimStr (getField raw "time_horizon") = .ok tT) :
    sanitizeAnalysis raw symbol price = .ok (sanitizeCore raw symbol price rT tT) := by
  cases raw <;> simp_all [sanitizeAnalysis]

theorem defaultReasoning_ne_empty (raw : JVal) (symbol : String) (price : ℚ) :
    defaultReasoning raw symbol price ≠ "" := by
  unfold defaultReasoning
  intro h
  have hd := congrArg String.data h
  rw [String.data_append] at hd
  exact List.append_ne_nil_of_right_ne_nil _ (by decide) hd

/-! ### Claim C1 -/

/-- C1 (amended): for every non-null parsed value whose `reasoning` and
`time_horizon` fields are, when present, null or strings, the sanitizer
returns a result with a non-empty `reasoning`, a non-empty
`time_horizon` ("N/A" when the field is absent, null or blank), and a
confidence in [0, 1], with non-numeric confidence replaced by 0.5.
(When `reasoning` or `time_horizon` holds a non-null non-string value
the source instead throws; see the counterexample.) -/
theorem C1_sanitize_guarantees (raw : JVal) (sym : String) (price : ℚ)
    (hraw : raw ≠ .jnull)
    (hr : StrFieldOK (getField raw "reasoning"))
    (ht : StrFieldOK (getField raw "time_horizon")) :
    ∃ r, sanitizeAnalysis raw sym price = .ok r ∧
      r.reasoning ≠ "" ∧
      r.time_horizon ≠ "" ∧
      ((getField raw "time_horizon" = none ∨ getField raw "time_horizon" = some .jnull ∨
          ∃ s, getField raw "time_horizon" = some (.jstr s) ∧ trimJS s = "") →
        r.time_horizon = "N/A") ∧
      0 ≤ r.confidence ∧ r.confidence ≤ 1 ∧
      ((∀ q, getField raw "confidence" ≠ some (.jnum q)) → r.confidence = 1 / 2) := by
  obtain ⟨rT, hrT⟩ := optTrimStr_ok_of_StrFieldOK hr
  obtain ⟨tT, htT⟩ := optTrimStr_ok_of_StrFieldOK ht
  refine ⟨_, sanitizeAnalysis_eq raw sym price hraw hrT htT, ?_, ?_, ?_, ?_, ?_, ?_⟩
  · show (sanitizeCore raw sym price rT tT).reasoning ≠ ""
    simp only [sanitizeCore]
    cases rT with
    | none => exact defaultReasoning_ne_empty _ _ _
    | some s =>
      by_cases hs : s = "" <;> simp [hs, defaultReasoning_ne_empty]
  · show (sanitizeCore raw sym price rT tT).time_horizon ≠ ""
    simp only [sanitizeCore]
    cases tT with
    | none => decide
    | some s => by_cases hs : s = "" <;> simp [hs]
  · intro hcase
    show (sanitizeCore raw sym price rT tT).time_horizon = "N/A"
    simp only [sanitizeCore]
    rcases hcase with h0 | h0 | ⟨s, h0, hs0⟩ <;> rw [h0] at htT <;>
      simp [optTrimStr] at htT
    · rw [← htT]
    · rw [← htT]
    · rw [← htT, hs0]
      simp
  · show 0 ≤ (sanitizeCore raw sym price rT tT).confidence
    simp only [sanitizeCore]
    rcases hc : getField raw "confidence" with _ | v
    · norm_num
    · cases v <;> simp
  · show (sanitizeCore raw sym price rT tT).confidence ≤ 1
    simp only [sanitizeCore]
    rcases hc : getField raw "confidence" with _ | v
    · norm_num
    · cases v <;> simp <;> norm_num
  · intro hnn
    show (sanitizeCore raw sym price rT tT).confidence = 1 / 2
    simp only [sanitizeCore]

/-- Closed instantiation of `C1_sanitize_guarantees` at the empty
object. -/
theorem C1_sanitize_guarantees_witness :
    ∃ r, sanitizeAnalysis (.jobj []) "AAPL" 100 = .ok r ∧
      r.reasoning ≠ "" ∧
      r.time_horizon ≠ "" ∧
      ((getField (.jobj []) "time_horizon" = none ∨
          getField (.jobj []) "time_horizon" = some .jnull ∨
          ∃ s, getField (.jobj []) "time_horizon" = some (.jstr s) ∧ trimJS s = "") →
        r.time_horizon = "N/A") ∧
      0 ≤ r.confidence ∧ r.confidence ≤ 1 ∧
      ((∀ q, getField (.jobj []) "confidence" ≠ some (.jnum q)) → r.confidence = 1 / 2) :=
  C1_sanitize_guarantees (.jobj []) "AAPL" 100 (by simp) (Or.inl rfl) (Or.inl rfl)

/-- C1 as stated is false: on the parsed object `{"reasoning": 5}` the
sanitizer does not return a result at all — `raw.reasoning?.trim()`
throws a `TypeError` because a number has no `trim` method. -/
theorem C1_counterexample :
    sanitizeAnalysis (.jobj [("reasoning", .jnum 5)]) "AAPL" 100
      = .error "TypeError: trim is not a function" := rfl

/-! ### Claim C2 -/

theorem enumOr_eq_of_mem {o : Option JVal} {s : String} {valid : List String}
    {dflt : String} (h : o = some (.jstr s)) (hm : s ∈ valid) :
    enumOr o valid dflt = s := by
  rw [h]; simp [enumOr, hm]

theorem enumOr_eq_default {o : Option JVal} {valid : List String} {dflt : String}
    (h : ¬ ∃ s, o = some (.jstr s) ∧ s ∈ valid) : enumOr o valid dflt = dflt := by
  rcases o with _ | v
  · rfl
  · cases v
    case jstr s =>
      by_cases hm : s ∈ valid
      · exact absurd ⟨s, rfl, hm⟩ h
      · simp [enumOr, hm]
    all_goals rfl

/-- C2 (amended): `signal_level`, `action` and `risk_estimation` are
passed through when inside their enumerated sets and replaced by the
fixed defaults `"weak"`, `"watch"`, `"moderate"` otherwise; but the
`technical_summary.trend` entry of the result equals whatever `trend`
entry the raw `technical_summary` spread contributes, valid or not, and
falls back to `"neutral"` only when the spread contributes none. -/
theorem C2_sanitize_enum_defaults (raw : JVal) (sym : String) (price : ℚ)
    (hraw : raw ≠ .jnull)
    (hr : StrFieldOK (getField raw "reasoning"))
    (ht : StrFieldOK (getField raw "time_horizon")) :
    ∃ r, sanitizeAnalysis raw sym price = .ok r ∧
      (∀ s, getField raw "signal_level" = some (.jstr s) → s ∈ VALID_SIGNALS →
        r.signal_level = s) ∧
      ((¬ ∃ s, getField raw "signal_level" = some (.jstr s) ∧ s ∈ VALID_SIGNALS) →
        r.signal_level = "weak") ∧
      (∀ s, getField raw "action" = some (.jstr s) → s ∈ VALID_ACTIONS →
        r.action = s) ∧
      ((¬ ∃ s, getField raw "action" = some (.jstr s) ∧ s ∈ VALID_ACTIONS) →
        r.action = "watch") ∧
      (∀ s, getField raw "risk_estimation" = some (.jstr s) → s ∈ VALID_RISKS →
        r.risk_estimation = s) ∧
      ((¬ ∃ s, getField raw "risk_estimation" = some (.jstr s) ∧ s ∈ VALID_RISKS) →
        r.risk_estimation = "moderate") ∧
      (∀ v, lookupLast (spreadSource (getField raw "technical_summary")) "trend" = some v →
        lookupFirst r.technical_summary "trend" = some v) ∧
      (lookupLast (spreadSource (getField raw "technical_summary")) "trend" = none →
        lookupFirst r.technical_summary "trend" = some (.jstr "neutral")) := by
  obtain ⟨rT, hrT⟩ := optTrimStr_ok_of_StrFieldOK hr
  obtain ⟨tT, htT⟩ := optTrimStr_ok_of_StrFieldOK ht
  refine ⟨_, sanitizeAnalysis_eq raw sym price hraw hrT htT,
    fun s hs hm => enumOr_eq_of_mem hs hm,
    fun hno => enumOr_eq_default hno,
    fun s hs hm => enumOr_eq_of_mem hs hm,
    fun hno => enumOr_eq_default hno,
    fun s hs hm => enumOr_eq_of_mem hs hm,
    fun hno => enumOr_eq_default hno,
    ?_, ?_⟩
  · intro v hv
    show lookupFirst (mergeSpread _ (spreadSource (getField raw "technical_summary"))) "trend"
      = some v
    rw [lookupFirst_mergeSpread, hv]
  · intro h0
    show lookupFirst (mergeSpread _ (spreadSource (getField raw "technical_summary"))) "trend"
      = some (.jstr "neutral")
    rw [lookupFirst_mergeSpread, h0]
    simp only [lookupFirst]
    rcases hts : getField raw "technical_summary" with _ | v
    · simp [tsGet, hts]
    · cases v
      case jobj kvs =>
        rw [hts] at h0
        simp only [spreadSource] at h0
        simp [tsGet, hts, h0]
      all_goals simp [tsGet, hts]

/-- Closed instantiation of `C2_sanitize_enum_defaults`: a valid
`signal_level` passes through and an absent trend defaults. -/
theorem C2_sanitize_enum_defaults_witness :
    ∃ r, sanitizeAnalysis
        (.jobj [("signal_level", .jstr "strong"), ("technical_summary", .jobj [])])
        "AAPL" 100 = .ok r ∧
      (∀ s, getField (.jobj [("signal_level", .jstr "strong"), ("technical_summary", .jobj [])])
          "signal_level" = some (.jstr s) → s ∈ VALID_SIGNALS → r.signal_level = s) ∧
      ((¬ ∃ s, getField (.jobj [("signal_level", .jstr "strong"), ("technical_summary", .jobj [])])
          "signal_level" = some (.jstr s) ∧ s ∈ VALID_SIGNALS) → r.signal_level = "weak") ∧
      (∀ s, getField (.jobj [("signal_level", .jstr "strong"), ("technical_summary", .jobj [])])
          "action" = some (.jstr s) → s ∈ VALID_ACTIONS → r.action = s) ∧
      ((¬ ∃ s, getField (.jobj [("signal_level", .jstr "strong"), ("technical_summary", .jobj [])])
          "action" = some (.jstr s) ∧ s ∈ VALID_ACTIONS) → r.action = "watch") ∧
      (∀ s, getField (.jobj [("signal_level", .jstr "strong"), ("technical_summary", .jobj [])])
          "risk_estimation" = some (.jstr s) → s ∈ VALID_RISKS → r.risk_estimation = s) ∧
      ((¬ ∃ s, getField (.jobj [("signal_level", .jstr "strong"), ("technical_summary", .jobj [])])
          "risk_estimation" = some (.jstr s) ∧ s ∈ VALID_RISKS) → r.risk_estimation = "moderate") ∧
      (∀ v, lookupLast (spreadSource (getField
          (.jobj [("signal_level", .jstr "strong"), ("technical_summary", .jobj [])])
          "technical_summary")) "trend" = some v →
        lookupFirst r.technical_summary "trend" = some v) ∧
      (lookupLast (spreadSource (getField
          (.jobj [("signal_level", .jstr "strong"), ("technical_summary", .jobj [])])
          "technical_summary")) "trend" = none →
        lookupFirst r.technical_summary "trend" = some (.jstr "neutral")) :=
  C2_sanitize_enum_defaults
    (.jobj [("signal_level", .jstr "strong"), ("technical_summary", .jobj [])])
    "AAPL" 100 (by simp) (Or.inl rfl) (Or.inl rfl)

/-- C2 as stated is false for `technical_summary.trend`: on
`{"technical_summary": {"trend": "banana"}}` the raw spread overrides
the sanitized default, so the result's trend is `"banana"`, which is
outside the enumerated set, not `"neutral"`. -/
theorem C2_counterexample :
    (sanitizeAnalysis (.jobj [("technical_summary", .jobj [("trend", .jstr "banana")])])
        "A" 1).toOption.map (fun r => lookupFirst r.technical_summary "trend")
      = some (some (.jstr "banana")) ∧
    "banana" ∉ VALID_TRENDS ∧ JVal.jstr "banana" ≠ .jstr "neutral" :=
  ⟨rfl, by decide, by simp⟩

/-! ### Claim C10 -/

/-- C10: the sanitized result's symbol is the parsed object's own symbol
whenever one is present (with a non-null value), and the caller's symbol
only when it is absent or null; independently, the suggestion row the
route persists always stores the upper-cased requested symbol, whatever
the analysis's own symbol is. -/
theorem C10_symbol_passthrough (raw : JVal) (sym : String) (price : ℚ)
    (hraw : raw ≠ .jnull)
    (hr : StrFieldOK (getField raw "reasoning"))
    (ht : StrFieldOK (getField raw "time_horizon")) :
    ∃ r, sanitizeAnalysis raw sym price = .ok r ∧
      (∀ v, getField raw "symbol" = some v → v ≠ .jnull → r.symbol = v) ∧
      ((getField raw "symbol" = none ∨ getField raw "symbol" = some .jnull) →
        r.symbol = .jstr sym) ∧
      (∀ (analysis : SanitizedAnalysis) (cp : ℚ),
        (mkSuggestionRow sym analysis cp).symbol = sym.toUpper) := by
  obtain ⟨rT, hrT⟩ := optTrimStr_ok_of_StrFieldOK hr
  obtain ⟨tT, htT⟩ := optTrimStr_ok_of_StrFieldOK ht
  refine ⟨_, sanitizeAnalysis_eq raw sym price hraw hrT htT, ?_, ?_, fun _ _ => rfl⟩
  · intro v hv hvn
    show nullishOr (getField raw "symbol") (.jstr sym) = v
    rw [hv]
    cases v
    case jnull => exact absurd rfl hvn
    all_goals rfl
  · rintro (h | h) <;>
      · show nullishOr (getField raw "symbol") (.jstr sym) = .jstr sym
        rw [h]
        rfl

/-- Closed instantiation of `C10_symbol_passthrough`: the model's echoed
symbol `"MSFT"` wins in the sanitized result while the stored row keeps
the upper-cased requested symbol. -/
theorem C10_symbol_passthrough_witness :
    ∃ r, sanitizeAnalysis (.jobj [("symbol", .jstr "MSFT")]) "aapl" 100 = .ok r ∧
      (∀ v, getField (.jobj [("symbol", .jstr "MSFT")]) "symbol" = some v → v ≠ .jnull →
        r.symbol = v) ∧
      ((getField (.jobj [("symbol", .jstr "MSFT")]) "symbol" = none ∨
          getField (.jobj [("symbol", .jstr "MSFT")]) "symbol" = some .jnull) →
        r.symbol = .jstr "aapl") ∧
      (∀ (analysis : SanitizedAnalysis) (cp : ℚ),
        (mkSuggestionRow "aapl" analysis cp).symbol = ("aapl" : String).toUpper) :=
  C10_symbol_passthrough (.jobj [("symbol", .jstr "MSFT")]) "aapl" 100
    (by simp) (Or.inl rfl) (Or.inl rfl)

/-! ### Claim C8 -/

/-- C8: the truncated response `{"symbol":"AAPL","signal_level":"buy`
is repaired (odd quote count closed, missing brace appended) and parses
to the expected object instead of raising. -/
theorem C8_repair_truncated :
    parseJsonResponse "\x7b\"symbol\":\"AAPL\",\"signal_level\":\"buy"
      = .ok (.jobj [("symbol", .jstr "AAPL"), ("signal_level", .jstr "buy")]) := rfl

/-! ### Claim C9 -/

theorem calculateEMA_eq_emaSpec (values : List ℚ) (period : ℕ)
    (h : period ≤ values.length) :
    calculateEMA values period = some (emaSpec values period) := by
  unfold calculateEMA emaSpec
  rw [if_neg (Nat.not_lt.mpr h)]
  simp only [Option.some.injEq]
  apply List.foldl_ext
  intro a b _
  ring

/-- C9: `calculateMACD` is null exactly below 26 bars, and otherwise
returns macd = EMA(12) − EMA(26) of the closes — where EMA is the
standard recursion seeded with the simple average of the first `period`
values and multiplier 2/(period+1) — with signal = macd × 0.85 and
histogram = macd − signal. -/
theorem C9_calculateMACD (data : List StockDailyData) :
    (data.length < 26 → calculateMACD data = none) ∧
    (26 ≤ data.length →
      calculateMACD data = some
        { macd := emaSpec (data.map (·.close)) 12 - emaSpec (data.map (·.close)) 26,
          signal := (emaSpec (data.map (·.close)) 12 - emaSpec (data.map (·.close)) 26)
            * (85 / 100),
          histogram := (emaSpec (data.map (·.close)) 12 - emaSpec (data.map (·.close)) 26)
            - (emaSpec (data.map (·.close)) 12 - emaSpec (data.map (·.close)) 26)
              * (85 / 100) }) := by
  constructor
  · intro h
    simp [calculateMACD, h]
  · intro h
    have h26 : (26 : ℕ) ≤ (data.map (·.close)).length := by simpa using h
    have h12 : (12 : ℕ) ≤ (data.map (·.close)).length := le_trans (by norm_num) h26
    simp [calculateMACD, Nat.not_lt.mpr h, calculateEMA_eq_emaSpec _ _ h12,
      calculateEMA_eq_emaSpec _ _ h26]

/-- Closed instantiation of `C9_calculateMACD` at a 26-bar constant
history. -/
theorem C9_calculateMACD_witness :
    26 ≤ (List.replicate 26 (StockDailyData.mk "d" 100 100 100 100 0)).length ∧
    calculateMACD (List.replicate 26 (StockDailyData.mk "d" 100 100 100 100 0)) = some
      { macd := emaSpec ((List.replicate 26 (StockDailyData.mk "d" 100 100 100 100 0)).map
            (·.close)) 12
          - emaSpec ((List.replicate 26 (StockDailyData.mk "d" 100 100 100 100 0)).map
            (·.close)) 26,
        signal := (emaSpec ((List.replicate 26 (StockDailyData.mk "d" 100 100 100 100 0)).map
            (·.close)) 12
          - emaSpec ((List.replicate 26 (StockDailyData.mk "d" 100 100 100 100 0)).map
            (·.close)) 26) * (85 / 100),
        histogram := (emaSpec ((List.replicate 26 (StockDailyData.mk "d" 100 100 100 100 0)).map
            (·.close)) 12
          - emaSpec ((List.replicate 26 (StockDailyData.mk "d" 100 100 100 100 0)).map
            (·.close)) 26)
          - (emaSpec ((List.replicate 26 (StockDailyData.mk "d" 100 100 100 100 0)).map
            (·.close)) 12
            - emaSpec ((List.replicate 26 (StockDailyData.mk "d" 100 100 100 100 0)).map
              (·.close)) 26) * (85 / 100) } :=
  ⟨by decide,
   (C9_calculateMACD (List.replicate 26 (StockDailyData.mk "d" 100 100 100 100 0))).2
     (by decide)⟩

/-! ### Claim C6 -/

theorem cacheLookup_eq_some (cache : String → Option StockCacheEntry) (now : ℤ)
    (kind : String) (e : StockCacheEntry) :
    cacheLookup cache now kind = some e ↔
      cache kind = some e ∧ now - e.fetched_at ≤ CACHE_WINDOW_MS := by
  unfold cacheLookup
  rcases hc : cache kind with _ | e'
  · simp
  · by_cases hf : now - CACHE_WINDOW_MS ≤ e'.fetched_at
    · simp only [if_pos hf, Option.some.injEq]
      constructor
      · rintro rfl
        exact ⟨rfl, by linarith⟩
      · rintro ⟨he, _⟩
        exact he
    · simp only [if_neg hf, Option.some.injEq]
      constructor
      · intro h
        simp at h
      · rintro ⟨he, hle⟩
        subst he
        exact absurd (by linarith : now - CACHE_WINDOW_MS ≤ e'.fetched_at) hf

/-- C6 (amended): the route skips the live fetch exactly when both the
quote and the daily cache entries exist with age **at most** 2 hours
(the `gte` filter keeps an entry aged exactly 2 hours); on any miss it
fetches both kinds and writes both back stamped with the current time,
and on a hit it returns the two cached payloads with the cache
unchanged. -/
theorem C6_cache_policy (cache : String → Option StockCacheEntry) (now : ℤ)
    (q d : JVal) :
    ((marketData cache now q d).2.2 = false ↔
      ((∃ e, cache "quote" = some e ∧ now - e.fetched_at ≤ CACHE_WINDOW_MS) ∧
       (∃ e, cache "daily" = some e ∧ now - e.fetched_at ≤ CACHE_WINDOW_MS))) ∧
    ((marketData cache now q d).2.2 = true →
      (marketData cache now q d).1 = (q, d) ∧
      (marketData cache now q d).2.1 "quote" = some ⟨q, now⟩ ∧
      (marketData cache now q d).2.1 "daily" = some ⟨d, now⟩) ∧
    ((marketData cache now q d).2.2 = false →
      ∃ eq' ed', cache "quote" = some eq' ∧ cache "daily" = some ed' ∧
        (marketData cache now q d).1 = (eq'.data, ed'.data) ∧
        (marketData cache now q d).2.1 = cache) := by
  unfold marketData
  rcases hlq : cacheLookup cache now "quote" with _ | eq' <;>
    rcases hld : cacheLookup cache now "daily" with _ | ed'
  · refine ⟨?_, fun _ => ⟨rfl, by simp, by simp⟩, fun h => by simp at h⟩
    constructor
    · intro h; exact absurd h (by simp)
    · rintro ⟨⟨e1, he1, hf1⟩, -⟩
      exact absurd ((cacheLookup_eq_some cache now "quote" e1).mpr ⟨he1, hf1⟩)
        (by rw [hlq]; simp)
  · refine ⟨?_, fun _ => ⟨rfl, by simp, by simp⟩, fun h => by simp at h⟩
    constructor
    · intro h; exact absurd h (by simp)
    · rintro ⟨⟨e1, he1, hf1⟩, -⟩
      exact absurd ((cacheLookup_eq_some cache now "quote" e1).mpr ⟨he1, hf1⟩)
        (by rw [hlq]; simp)
  · refine ⟨?_, fun _ => ⟨rfl, by simp, by simp⟩, fun h => by simp at h⟩
    constructor
    · intro h; exact absurd h (by simp)
    · rintro ⟨-, ⟨e2, he2, hf2⟩⟩
      exact absurd ((cacheLookup_eq_some cache now "daily" e2).mpr ⟨he2, hf2⟩)
        (by rw [hld]; simp)
  · have h1 := (cacheLookup_eq_some cache now "quote" eq').mp hlq
    have h2 := (cacheLookup_eq_some cache now "daily" ed').mp hld
    refine ⟨?_, fun h => by simp at h, fun _ => ⟨eq', ed', h1.1, h2.1, rfl, rfl⟩⟩
    constructor
    · intro _
      exact ⟨⟨eq', h1⟩, ⟨ed', h2⟩⟩
    · intro _
      rfl

/-- Closed instantiation of `C6_cache_policy` at the empty cache: both
kinds are fetched and written back stamped with the current time. -/
theorem C6_cache_policy_witness :
    (marketData (fun _ => none) 0 (.jbool true) (.jbool false)).2.2 = true ∧
    (marketData (fun _ => none) 0 (.jbool true) (.jbool false)).1
      = (.jbool true, .jbool false) ∧
    (marketData (fun _ => none) 0 (.jbool true) (.jbool false)).2.1 "quote"
      = some ⟨.jbool true, 0⟩ ∧
    (marketData (fun _ => none) 0 (.jbool true) (.jbool false)).2.1 "daily"
      = some ⟨.jbool false, 0⟩ :=
  ⟨rfl,
   ((C6_cache_policy (fun _ => none) 0 (.jbool true) (.jbool false)).2.1 rfl).1,
   ((C6_cache_policy (fun _ => none) 0 (.jbool true) (.jbool false)).2.1 rfl).2.1,
   ((C6_cache_policy (fun _ => none) 0 (.jbool true) (.jbool false)).2.1 rfl).2.2⟩

/-- C6 as stated is false at the freshness boundary: with both cache
entries aged exactly 2 hours the route treats them as fresh and skips
the fetch, while the claim's freshness notion (age ≥ 2 h ⇒ absent) says
it must fetch. -/
theorem C6_counterexample :
    (marketData (fun _ => some ⟨.jnull, 0⟩) CACHE_WINDOW_MS .jnull .jnull).2.2 = false ∧
    ¬ specFreshClaim (fun _ => some ⟨.jnull, 0⟩) CACHE_WINDOW_MS "quote" := by
  refine ⟨rfl, ?_⟩
  rintro ⟨e, he, hlt⟩
  injection he with he'
  subst he'
  simp at hlt

/-! ### Claim C3 -/

theorem respOk_status_ne_429 {r : GemResp} (h : respOk r = true) : r.status ≠ 429 := by
  intro he
  unfold respOk at h
  rw [he] at h
  revert h
  decide

theorem tryModel_429 (oracle : String → String → GemResp) (m : String) :
    ∀ (vs : List String) (mv : String × String),
      mv ∈ (tryModel oracle m vs).2 →
      (oracle mv.1 mv.2).status = 429 →
      (tryModel oracle m vs).1 = .abort (containsStr (oracle mv.1 mv.2).body "limit: 0") ∧
      (tryModel oracle m vs).2.getLast? = some mv := by
  intro vs
  induction vs with
  | nil =>
    intro mv hmem
    simp [tryModel] at hmem
  | cons v rest ih =>
    intro mv hmem h429
    by_cases hok : respOk (oracle m v) = true
    · rcases htxt : (oracle m v).text with _ | s
      · simp [tryModel, hok, htxt] at hmem ⊢
        subst hmem
        exact absurd h429 (respOk_status_ne_429 hok)
      · by_cases hs : s = ""
        · simp [tryModel, hok, htxt, hs] at hmem ⊢
          subst hmem
          exact absurd h429 (respOk_status_ne_429 hok)
        · simp [tryModel, hok, htxt, hs] at hmem ⊢
          subst hmem
          exact absurd h429 (respOk_status_ne_429 hok)
    · rw [Bool.not_eq_true] at hok
      by_cases h2 : (oracle m v).status = 429
      · simp [tryModel, hok, h2] at hmem ⊢
        subst hmem
        simp [h2]
      · by_cases h4 : (oracle m v).status = 404
        · simp [tryModel, hok, h2, h4] at hmem ⊢
          rcases hmem with heq | hmem'
          · subst heq
            exact absurd h429 (by simp [h4])
          · obtain ⟨hres, hlast⟩ := ih mv hmem' h429
            refine ⟨hres, ?_⟩
            rcases htr : (tryModel oracle m rest).2 with _ | ⟨a, tr'⟩
            · rw [htr] at hmem'
              simp at hmem'
            · rw [htr] at hlast
              rw [List.getLast?_cons_cons]
              exact hlast
        · simp [tryModel, hok, h2, h4] at hmem ⊢
          subst hmem
          exact absurd h429 h2

theorem goModels_429 (oracle : String → String → GemResp) (allCands : List String) :
    ∀ (cands errs : List String) (mv : String × String),
      mv ∈ (goModels oracle allCands cands errs).2 →
      (oracle mv.1 mv.2).status = 429 →
      (goModels oracle allCands cands errs).1
        = .rateLimited (containsStr (oracle mv.1 mv.2).body "limit: 0") ∧
      (goModels oracle allCands cands errs).2.getLast? = some mv := by
  intro cands
  induction cands with
  | nil =>
    intro errs mv hmem
    simp [goModels] at hmem
  | cons m rest ih =>
    intro errs mv hmem h429
    cases ht : (tryModel oracle m GEMINI_VERSIONS).1 with
    | success v t =>
      simp only [goModels, ht] at hmem ⊢
      obtain ⟨hres, -⟩ := tryModel_429 oracle m GEMINI_VERSIONS mv hmem h429
      rw [ht] at hres
      exact absurd hres (by simp)
    | abort b =>
      simp only [goModels, ht] at hmem ⊢
      obtain ⟨hres, hlast⟩ := tryModel_429 oracle m GEMINI_VERSIONS mv hmem h429
      rw [ht] at hres
      injection hres with hb
      exact ⟨by rw [hb], hlast⟩
    | giveUp es =>
      simp only [goModels, ht] at hmem ⊢
      rcases List.mem_append.mp hmem with hmem1 | hmem2
      · obtain ⟨hres, -⟩ := tryModel_429 oracle m GEMINI_VERSIONS mv hmem1 h429
        rw [ht] at hres
        exact absurd hres (by simp)
      · obtain ⟨hres, hlast⟩ := ih (errs ++ es) mv hmem2 h429
        refine ⟨hres, ?_⟩
        rw [List.getLast?_append_of_ne_nil _ (List.ne_nil_of_mem hmem2)]
        exact hlast

/-- C3: if any request the fallback search actually performs returns
HTTP 429, the search raises the rate-limit outcome and that request is
the last one performed — no other model or revision is contacted. -/
theorem C3_429_aborts_chain (oracle : String → String → GemResp)
    (cands : List String) (mv : String × String)
    (hmem : mv ∈ (geminiFallback oracle cands).2)
    (h429 : (oracle mv.1 mv.2).status = 429) :
    (geminiFallback oracle cands).1
      = .rateLimited (containsStr (oracle mv.1 mv.2).body "limit: 0") ∧
    (geminiFallback oracle cands).2.getLast? = some mv := by
  cases cands with
  | nil => simp [geminiFallback] at hmem
  | cons m rest =>
    have h : geminiFallback oracle (m :: rest)
        = goModels oracle (m :: rest) (m :: rest) [] := rfl
    rw [h] at hmem ⊢
    exact goModels_429 oracle (m :: rest) (m :: rest) [] mv hmem h429

/-- Closed instantiation of `C3_429_aborts_chain`: with two candidate
models and a 429 on the very first request, the chain stops there. -/
theorem C3_429_aborts_chain_witness :
    (geminiFallback (fun _ _ => ⟨429, "x", none⟩) ["a", "b"]).1
      = .rateLimited (containsStr (GemResp.mk 429 "x" none).body "limit: 0") ∧
    (geminiFallback (fun _ _ => ⟨429, "x", none⟩) ["a", "b"]).2.getLast?
      = some ("a", "v1beta") :=
  C3_429_aborts_chain (fun _ _ => ⟨429, "x", none⟩) ["a", "b"] ("a", "v1beta")
    (by decide) rfl

/-! ### Claim C4 -/

/-- C4: a 404 on revision v1beta makes the search retry the same model
on v1, and a success there returns immediately: the trace is exactly the
two requests to the first model, so no request reaches the next-ranked
model. -/
theorem C4_404_retries_next_revision (oracle : String → String → GemResp)
    (m : String) (rest : List String) (t : String)
    (h404 : (oracle m "v1beta").status = 404)
    (hok : respOk (oracle m "v1") = true)
    (htxt : (oracle m "v1").text = some t)
    (hne : t ≠ "") :
    geminiFallback oracle (m :: rest)
      = (.success m "v1" t, [(m, "v1beta"), (m, "v1")]) := by
  have hok1 : respOk (oracle m "v1beta") = false := by
    unfold respOk
    rw [h404]
    decide
  have htm : tryModel oracle m GEMINI_VERSIONS
      = (.success "v1" t, [(m, "v1beta"), (m, "v1")]) := by
    simp [tryModel, GEMINI_VERSIONS, hok1, h404, hok, htxt, hne]
  have hg : geminiFallback oracle (m :: rest)
      = goModels oracle (m :: rest) (m :: rest) [] := rfl
  rw [hg]
  simp [goModels, htm]

/-- Closed instantiation of `C4_404_retries_next_revision`. -/
theorem C4_404_retries_next_revision_witness :
    geminiFallback (fun _ v => if v = "v1" then ⟨200, "", some "T"⟩ else ⟨404, "", none⟩)
        ["a", "b"]
      = (.success "a" "v1" "T", [("a", "v1beta"), ("a", "v1")]) :=
  C4_404_retries_next_revision
    (fun _ v => if v = "v1" then ⟨200, "", some "T"⟩ else ⟨404, "", none⟩)
    "a" ["b"] "T" (by decide) (by decide) (by decide) (by decide)

/-! ### Claim C5 -/

theorem tryModel_giveUp_errs (oracle : String → String → GemResp) (m : String) :
    ∀ (vs es : List String),
      (tryModel oracle m vs).1 = .giveUp es →
      es = (tryModel oracle m vs).2.flatMap (errOf oracle) := by
  intro vs
  induction vs with
  | nil =>
    intro es h
    simp [tryModel] at h
    simp [tryModel, ← h]
  | cons v rest ih =>
    intro es h
    by_cases hok : respOk (oracle m v) = true
    · rcases htxt : (oracle m v).text with _ | s
      · simp [tryModel, hok, htxt] at h ⊢
        simp [errOf, hok, htxt, textEmpty, ← h]
      · by_cases hs : s = ""
        · simp [tryModel, hok, htxt, hs] at h ⊢
          simp [errOf, hok, htxt, hs, textEmpty, ← h]
        · simp [tryModel, hok, htxt, hs] at h
    · rw [Bool.not_eq_true] at hok
      by_cases h2 : (oracle m v).status = 429
      · simp [tryModel, hok, h2] at h
      · by_cases h4 : (oracle m v).status = 404
        · simp [tryModel, hok, h2, h4] at h ⊢
          have herr : errOf oracle (m, v) = [] := by
            simp [errOf, hok, h2, h4]
          rw [herr]
          simpa using ih es h
        · simp [tryModel, hok, h2, h4] at h ⊢
          simp [errOf, hok, h2, h4, ← h]

theorem goModels_allFailed (oracle : String → String → GemResp) (allCands : List String) :
    ∀ (cands errs0 : List String) (tried es : List String),
      (goModels oracle allCands cands errs0).1 = .allFailed tried es →
      tried = allCands ∧
      es = errs0 ++ (goModels oracle allCands cands errs0).2.flatMap (errOf oracle) := by
  intro cands
  induction cands with
  | nil =>
    intro errs0 tried es h
    simp [goModels] at h ⊢
    exact ⟨h.1.symm, h.2.symm⟩
  | cons m rest ih =>
    intro errs0 tried es h
    cases ht : (tryModel oracle m GEMINI_VERSIONS).1 with
    | success v t => simp [goModels, ht] at h
    | abort b => simp [goModels, ht] at h
    | giveUp es' =>
      simp only [goModels, ht] at h ⊢
      obtain ⟨h1, h2⟩ := ih (errs0 ++ es') tried es h
      refine ⟨h1, ?_⟩
      rw [h2, List.flatMap_append, ← tryModel_giveUp_errs oracle m GEMINI_VERSIONS es' ht,
        List.append_assoc]

/-- C5 (amended): when the whole search fails, the single aggregate
outcome names every candidate model, and its reason list consists of
exactly one entry per performed request that failed with empty text or a
non-404, non-429 status (in request order, as `errOf` renders them) —
requests that failed with 404 contribute no entry. -/
theorem C5_aggregate_error (oracle : String → String → GemResp)
    (cands tried errs : List String)
    (h : (geminiFallback oracle cands).1 = .allFailed tried errs) :
    tried = cands ∧
    errs = (geminiFallback oracle cands).2.flatMap (errOf oracle) := by
  cases cands with
  | nil => simp [geminiFallback] at h
  | cons m rest =>
    have hg : geminiFallback oracle (m :: rest)
        = goModels oracle (m :: rest) (m :: rest) [] := rfl
    rw [hg] at h ⊢
    simpa using goModels_allFailed oracle (m :: rest) (m :: rest) [] tried errs h

/-- Closed instantiation of `C5_aggregate_error`: a single model failing
with HTTP 500 on v1beta yields one aggregate entry. -/
theorem C5_aggregate_error_witness :
    (["a"] : List String) = ["a"] ∧
    (["a/v1beta: HTTP 500"] : List String)
      = (geminiFallback (fun _ _ => ⟨500, "", none⟩) ["a"]).2.flatMap
          (errOf (fun _ _ => ⟨500, "", none⟩)) :=
  C5_aggregate_error (fun _ _ => ⟨500, "", none⟩) ["a"] ["a"] ["a/v1beta: HTTP 500"] rfl

/-- C5 as stated is false: with one candidate model answering 404 on
both revisions, two requests are performed but the aggregate outcome's
reason list is empty — the attempted combinations are not listed. -/
theorem C5_counterexample :
    (geminiFallback (fun _ _ => ⟨404, "", none⟩) ["m"]).1 = .allFailed ["m"] [] ∧
    (geminiFallback (fun _ _ => ⟨404, "", none⟩) ["m"]).2
      = [("m", "v1beta"), ("m", "v1")] :=
  ⟨rfl, rfl⟩

/-! ### Claim C7 -/

/-- C7: the ranking score is exactly the claimed weighted sum (+10000
latest, +1000 × parsed version, +100 flash, +50/+20/+0 for
stable/preview/experimental); `rankModels` sorts the eligible ids
descending by that score with a stable sort (a pair in discovery order
whose scores are ordered stays in that order); and on the three example
descriptors it returns exactly the claimed order. -/
theorem C7_model_ranking :
    (∀ m : String, score m = scoreSpecFormula m) ∧
    (∀ ds : List GeminiModel,
      List.Pairwise (fun a b => score b ≤ score a) (rankModels ds)) ∧
    (∀ (ds : List GeminiModel) (a b : String),
      [a, b].Sublist (filteredIds ds) → score b ≤ score a →
      [a, b].Sublist (rankModels ds)) ∧
    rankModels
      [⟨"gemini-2.0-flash", "Gemini 2.0 Flash", ["generateContent"]⟩,
       ⟨"gemini-2.5-pro-preview", "Gemini 2.5 Pro Preview", ["generateContent"]⟩,
       ⟨"gemini-1.5-flash-latest", "Gemini 1.5 Flash Latest", ["generateContent"]⟩]
      = ["gemini-1.5-flash-latest", "gemini-2.5-pro-preview", "gemini-2.0-flash"] := by
  have s1 : score "gemini-2.0-flash" = 2150 := by
    have h : score "gemini-2.0-flash"
        = 0 + (((2:ℕ):ℚ) + ((0:ℕ):ℚ) / ((10:ℚ) ^ (1:ℕ))) * 1000 + 100 + 50 := rfl
    rw [h]; norm_num
  have s2 : score "gemini-2.5-pro-preview" = 2520 := by
    have h : score "gemini-2.5-pro-preview"
        = 0 + (((2:ℕ):ℚ) + ((5:ℕ):ℚ) / ((10:ℚ) ^ (1:ℕ))) * 1000 + 20 := rfl
    rw [h]; norm_num
  have s3 : score "gemini-1.5-flash-latest" = 11650 := by
    have h : score "gemini-1.5-flash-latest"
        = 0 + 10000 + (((1:ℕ):ℚ) + ((5:ℕ):ℚ) / ((10:ℚ) ^ (1:ℕ))) * 1000 + 100 + 50 := rfl
    rw [h]; norm_num
  refine ⟨?_, ?_, ?_, ?_⟩
  · intro m
    unfold score scoreSpecFormula
    dsimp only
    split_ifs <;> ring
  · intro ds
    haveI : IsTotal String (fun a b => score b ≤ score a) :=
      ⟨fun a b => le_total (score b) (score a)⟩
    haveI : IsTrans String (fun a b => score b ≤ score a) :=
      ⟨fun _ _ _ hab hbc => le_trans hbc hab⟩
    simp only [rankModels]
    cases h : filteredIds ds with
    | nil => simp
    | cons x xs => exact List.sorted_insertionSort _ _
  · intro ds a b hsub hsc
    simp only [rankModels]
    cases h : filteredIds ds with
    | nil =>
      rw [h] at hsub
      simp at hsub
    | cons x xs =>
      rw [h] at hsub
      exact List.pair_sublist_insertionSort hsc hsub
  · have hCB : ¬ (score "gemini-1.5-flash-latest" ≤ score "gemini-2.5-pro-preview") := by
      rw [s2, s3]; norm_num
    have hCA : ¬ (score "gemini-1.5-flash-latest" ≤ score "gemini-2.0-flash") := by
      rw [s1, s3]; norm_num
    have hBA : ¬ (score "gemini-2.5-pro-preview" ≤ score "gemini-2.0-flash") := by
      rw [s1, s2]; norm_num
    have e : rankModels
        [⟨"gemini-2.0-flash", "Gemini 2.0 Flash", ["generateContent"]⟩,
         ⟨"gemini-2.5-pro-preview", "Gemini 2.5 Pro Preview", ["generateContent"]⟩,
         ⟨"gemini-1.5-flash-latest", "Gemini 1.5 Flash Latest", ["generateContent"]⟩]
        = List.insertionSort (fun a b => score b ≤ score a)
            ["gemini-2.0-flash", "gemini-2.5-pro-preview", "gemini-1.5-flash-latest"] := rfl
    rw [e]
    simp [List.insertionSort, List.orderedInsert, hCB, hCA, hBA]

/-- Closed instantiation of the stability clause of `C7_model_ranking`:
two ids of equal score keep their discovery order. -/
theorem C7_model_ranking_witness :
    ["gemini-2.0-flash", "gemini-2.0-flash"].Sublist
      (rankModels
        [⟨"gemini-2.0-flash", "Gemini 2.0 Flash", ["generateContent"]⟩,
         ⟨"gemini-2.0-flash", "Gemini 2.0 Flash", ["generateContent"]⟩]) :=
  C7_model_ranking.2.2.1
    [⟨"gemini-2.0-flash", "Gemini 2.0 Flash", ["generateContent"]⟩,
     ⟨"gemini-2.0-flash", "Gemini 2.0 Flash", ["generateContent"]⟩]
    "gemini-2.0-flash" "gemini-2.0-flash" (List.Sublist.refl _) (le_refl _)
